import Mathlib

/-!
Verification development for the Sparklight raffle draw engine.

The definitions below are a shallow embedding of the TypeScript sources:

* `weightedRandomSelect`, `calculateChecksum`, `mulberry32`, `generateSeed`
  support functions from `src/lib/raffle` (the module embedded in
  `src/src/lib/entra-auth.ts` after the separator);
* `getPrizeForWinner` from `src/types/prizes`;
* the draw-session state machine from `src/src/pages/Index.tsx`
  (`handleDrawNext`, `handleSpinComplete`, `handleUndo`, `handleRestart`,
  `handleLock`, `startPresenterMode`, `startReplayMode`,
  `exitPresenterMode`, `handleBulkDraw`), together with the enabling
  conditions under which the UI can actually fire each handler
  (button `disabled`/render guards in `Index.tsx`, `WinnersReview.tsx`
  and the presenter component).

JavaScript 32-bit integer arithmetic is modelled exactly over `Nat`/`Int`
with reduction mod 2^32; the `[0,1)` random output and the weighted-walk
arithmetic are modelled over `ℚ` (the PRNG output `k / 2^32` and the
integer cumulative sums are exactly representable, so the rational model
matches the double-precision evaluation for all realistic pool weights).
The `Math.random()` fallback that `weightedRandomSelect` applies when the
seed string does not parse to a nonzero integer is modelled by an explicit
`fallback` argument: distinct calls may see distinct fallback values.
-/

namespace Raffle

/-- A raffle participant as consumed by the draw engine: display name,
email (the dedup/exclusion key) and ticket count. -/
structure Participant where
  name : String
  email : String
  entries : Nat
deriving DecidableEq, Repr

/-- Truncation to an unsigned 32-bit value, i.e. the JavaScript `>>> 0` /
`ToUint32` coercion applied by the bitwise operators. -/
def u32 (n : Nat) : Nat := n % 4294967296

/-- JavaScript `Math.imul`: 32-bit multiplication (the signed/unsigned
distinction is irrelevant modulo 2^32). -/
def imul32 (a b : Nat) : Nat := u32 (a * b)

/-- Unsigned residue of an integer modulo 2^32, the bit pattern JavaScript
bitwise operators see for a (possibly negative) integer seed. -/
def u32ofInt (n : Int) : Nat := (n % 4294967296).toNat

/-- One step of the Mulberry32 generator from `src/lib/raffle`
(`mulberry32(seed)()`), returning the raw 32-bit output `k`; the JS code
returns `k / 4294967296`. The selector only ever samples the generator
once per call. -/
def mulberry32 (seed : Int) : Nat :=
  let t0 := u32ofInt (seed + 0x6D2B79F5)
  let t1 := imul32 (t0 ^^^ (t0 >>> 15)) (t0 ||| 1)
  let t2 := t1 ^^^ u32 (t1 + imul32 (t1 ^^^ (t1 >>> 7)) (t1 ||| 61))
  t2 ^^^ (t2 >>> 14)

/-- Decimal digit test for `jsParseInt`. -/
def isDigitChar (c : Char) : Bool := '0' ≤ c ∧ c ≤ '9'

/-- Numeric value of a list of decimal digits. -/
def digitsToNat (cs : List Char) : Nat :=
  cs.foldl (fun a c => a * 10 + (c.toNat - 48)) 0

/-- JavaScript `parseInt(s, 10)`: skip leading whitespace, read an optional
sign and then the longest prefix of decimal digits; `none` models `NaN`. -/
def jsParseInt (s : String) : Option Int :=
  let cs := s.data.dropWhile fun c => c = ' ' ∨ c = '\t' ∨ c = '\n' ∨ c = '\r'
  match cs with
  | '-' :: rest =>
      let ds := rest.takeWhile isDigitChar
      if ds.isEmpty then none else some (-(digitsToNat ds : Int))
  | '+' :: rest =>
      let ds := rest.takeWhile isDigitChar
      if ds.isEmpty then none else some (digitsToNat ds : Int)
  | _ =>
      let ds := cs.takeWhile isDigitChar
      if ds.isEmpty then none else some (digitsToNat ds : Int)

/-- The numeric seed used by `weightedRandomSelect`:
`parseInt(seed, 10) || Math.floor(Math.random() * 2147483647)`.
A parse producing `NaN` or `0` (both falsy) yields the `Math.random()`
fallback, modelled by the explicit `fallback` argument. -/
def seedNumOf (seed : String) (fallback : Nat) : Int :=
  match jsParseInt seed with
  | some n => if n = 0 then (fallback : Int) else n
  | none => (fallback : Int)

/-- The raw 32-bit random sample drawn by `weightedRandomSelect`:
`mulberry32(seedNum + excludeEmails.size)()`. It depends only on the
numeric seed and the size of the exclusion set. -/
def selectRandom (seed : String) (excludeSize : Nat) (fallback : Nat) : Nat :=
  mulberry32 (seedNumOf seed fallback + excludeSize)

/-- The eligible sub-pool: participants whose email is not excluded
(`participants.filter(p => !excludeEmails.has(p.email))`). -/
def eligibleOf (participants : List Participant) (excludeEmails : Finset String) :
    List Participant :=
  participants.filter fun p => p.email ∉ excludeEmails

/-- Total ticket weight of a pool (`reduce((sum, p) => sum + p.entries, 0)`). -/
def totalWeightOf (l : List Participant) : Nat :=
  (l.map Participant.entries).sum

/-- The cumulative walk of `weightedRandomSelect`: accumulate entries and
return the first participant whose cumulative sum reaches the target;
`none` when the walk falls through. -/
def cumFind (target : ℚ) : ℚ → List Participant → Option Participant
  | _, [] => none
  | cum, p :: rest =>
      if target ≤ cum + (p.entries : ℚ) then some p
      else cumFind target (cum + (p.entries : ℚ)) rest

/-- `weightedRandomSelect(participants, seed, excludeEmails)` from
`src/lib/raffle`. The `fallback` argument models the `Math.random()`
fallback seed used when the seed string does not parse to a nonzero
integer. -/
def weightedRandomSelect (participants : List Participant) (seed : String)
    (excludeEmails : Finset String) (fallback : Nat) : Option Participant :=
  let eligible := eligibleOf participants excludeEmails
  if eligible.isEmpty then none
  else
    let totalWeight := totalWeightOf eligible
    if totalWeight = 0 then none
    else
      let k := selectRandom seed excludeEmails.card fallback
      let target : ℚ := ((k : ℚ) / 4294967296) * (totalWeight : ℚ)
      match cumFind target 0 eligible with
      | some p => some p
      | none => eligible.getLast?

/-- The `name|email|entries` line contributed by one participant to the
checksum input. -/
def participantLine (p : Participant) : String :=
  p.name ++ "|" ++ p.email ++ "|" ++ toString p.entries

/-- The string hashed by `calculateChecksum`: the per-participant lines,
sorted lexicographically (JS `Array.prototype.sort`), joined by newline. -/
def checksumInput (participants : List Participant) : String :=
  String.intercalate "\n" ((participants.map participantLine).mergeSort)

/-- `calculateChecksum(participants)`: hash the sorted line list and keep a
16-character prefix. `CryptoJS.SHA256(·).toString()` is an external library
digest, modelled as an arbitrary function `sha256hex` of the input string. -/
def calculateChecksum (sha256hex : String → String)
    (participants : List Participant) : String :=
  (sha256hex (checksumInput participants)).take 16

/-- Prize mode of a `PrizeConfig` (`'same' | 'sequential'`). -/
inductive PrizeMode where
  | same
  | sequential
deriving DecidableEq, Repr

/-- A configured prize; only identity matters to the assignment logic. -/
structure Prize where
  id : String
  text : Option String := none
deriving DecidableEq, Repr

/-- `PrizeConfig` from `src/types/prizes`: a mode plus the two optional
payload fields of the source interface. -/
structure PrizeConfig where
  mode : PrizeMode
  samePrize : Option Prize := none
  sequentialPrizes : Option (List Prize) := none
deriving DecidableEq, Repr

/-- `getPrizeForWinner(config, winnerIndex)` from `src/types/prizes`:
`null` config propagates; `'same'` mode returns the configured prize when
present; `'sequential'` mode clamps the 0-based index to the last prize and
returns `null` on an empty list; all other shapes return `null`. -/
def getPrizeForWinner (config : Option PrizeConfig) (winnerIndex : Nat) :
    Option Prize :=
  match config with
  | none => none
  | some cfg =>
      if cfg.mode = PrizeMode.same ∧ cfg.samePrize.isSome then cfg.samePrize
      else
        match cfg.mode, cfg.sequentialPrizes with
        | PrizeMode.sequential, some prizes =>
            if prizes.length = 0 then none
            else prizes[min winnerIndex (prizes.length - 1)]?
        | _, _ => none

/-- Reveal mode of a raffle configuration (`'sequential' | 'bulk'`). -/
inductive RevealMode where
  | sequential
  | bulk
deriving DecidableEq, Repr

/-- The fields of `RaffleConfig` the draw engine reads (the remaining
fields of the source interface are animation/display settings). -/
structure RaffleConfig where
  numberOfWinners : Nat
  allowRepeats : Bool
  bonusRoundInterval : Nat
  revealMode : RevealMode
deriving DecidableEq, Repr

/-- A recorded winner: selected participant, 1-based draw counter value at
recording time, bonus flag. The wall-clock timestamp is not modelled. -/
structure Winner where
  participant : Participant
  drawNumber : Nat
  isBonusPrize : Bool
deriving DecidableEq, Repr

/-- One entry of the audit log's winner projection
(`drawNumber/name/email/entries`; the ISO timestamp is not modelled). -/
structure AuditWinner where
  drawNumber : Nat
  name : String
  email : String
  entries : Nat
deriving DecidableEq, Repr

/-- The audit-log entry appended for a recorded winner. -/
def auditEntryOf (p : Participant) (drawNumber : Nat) : AuditWinner :=
  ⟨drawNumber, p.name, p.email, p.entries⟩

/-- Executable mirror of `cumFind` with the comparison scaled by `2^32`:
`target ≤ cum + e` for `target = (k / 2^32) * W` is `k * W ≤ (cum + e) * 2^32`.
Used to evaluate the selector inside kernel reduction, where rational
normalization does not compute. -/
def cumFindExec (targetNum : Nat) : Nat → List Participant → Option Participant
  | _, [] => none
  | cum, p :: rest =>
      if targetNum ≤ (cum + p.entries) * 4294967296 then some p
      else cumFindExec targetNum (cum + p.entries) rest

/-- Executable mirror of `weightedRandomSelect` (see `cumFindExec`);
proved equal to it in `weightedRandomSelect_eq_exec`. -/
def wrsExec (participants : List Participant) (seed : String)
    (excludeEmails : Finset String) (fallback : Nat) : Option Participant :=
  let eligible := eligibleOf participants excludeEmails
  if eligible.isEmpty then none
  else
    let totalWeight := totalWeightOf eligible
    if totalWeight = 0 then none
    else
      let k := selectRandom seed excludeEmails.card fallback
      match cumFindExec (k * totalWeight) 0 eligible with
      | some p => some p
      | none => eligible.getLast?

/-- The React state of `Index.tsx` that the draw state machine touches,
for a session whose seed, draw id and checksum already exist (every claim
below fixes the seed). `auditWinners` is the `winners` array of the
nullable `auditLog` state. -/
structure RaffleState where
  participants : List Participant
  config : RaffleConfig
  seed : String
  winners : List Winner
  drawNumber : Nat
  isLocked : Bool
  auditWinners : Option (List AuditWinner)
  currentWinner : Option Participant
  isDrawing : Bool
  showPresenter : Bool
  isReplayMode : Bool
  replayIndex : Nat
  bulkWinners : List Winner
deriving DecidableEq, Repr

/-- The Winner record `handleSpinComplete` appends for current winner `c`
in state `s`. -/
def recordedWinner (s : RaffleState) (c : Participant) : Winner :=
  ⟨c, s.drawNumber + 1, decide (0 < s.config.bonusRoundInterval ∧
    (s.drawNumber + 1) % s.config.bonusRoundInterval = 0)⟩

/-- The exclusion set a sequential draw passes to the selector:
empty when repeats are allowed, otherwise the set of already-recorded
winner emails (`new Set(winners.map(w => w.participant.email))`). -/
def excludeSetOf (s : RaffleState) : Finset String :=
  if s.config.allowRepeats then ∅
  else (s.winners.map fun w => w.participant.email).toFinset

/-- `handleDrawNext` from `Index.tsx`: clear the previous winner; in
replay mode play back `winners[replayIndex]`; otherwise, unless the
configured winner count is reached, draw via `weightedRandomSelect`. -/
def handleDrawNext (fallback : Nat) (s : RaffleState) : RaffleState :=
  let s := { s with currentWinner := none }
  if s.isReplayMode then
    if s.winners.length ≤ s.replayIndex then s
    else
      { s with isDrawing := true,
               currentWinner := (s.winners[s.replayIndex]?).map Winner.participant }
  else if s.config.numberOfWinners ≤ s.winners.length then s
  else
    match weightedRandomSelect s.participants s.seed (excludeSetOf s) fallback with
    | some w => { s with isDrawing := true, currentWinner := some w }
    | none => { s with isDrawing := false }

/-- `handleSpinComplete` from `Index.tsx`: when a current winner exists,
either advance the replay cursor (replay mode) or record the winner —
append it with draw number `drawNumber + 1` and the bonus flag
`bonusRoundInterval > 0 && newDrawNumber % bonusRoundInterval == 0`, and
append the matching audit entry. The current winner is not cleared in the
recording branch ("let it persist until next draw"). -/
def handleSpinComplete (s : RaffleState) : RaffleState :=
  let s := { s with isDrawing := false }
  match s.currentWinner with
  | none => s
  | some cw =>
      if s.isReplayMode then
        { s with drawNumber := s.replayIndex + 1, replayIndex := s.replayIndex + 1,
                 currentWinner := none }
      else
        let nd := s.drawNumber + 1
        let w : Winner :=
          ⟨cw, nd, decide (0 < s.config.bonusRoundInterval ∧
            nd % s.config.bonusRoundInterval = 0)⟩
        { s with winners := s.winners ++ [w], drawNumber := nd,
                 auditWinners := s.auditWinners.map (· ++ [auditEntryOf cw nd]) }

/-- `handleUndo` from `Index.tsx`: a no-op when the winners list is empty
or the session is locked; otherwise pop the last winner and audit entry
and decrement the draw counter. -/
def handleUndo (s : RaffleState) : RaffleState :=
  if s.winners.isEmpty ∨ s.isLocked then s
  else
    { s with winners := s.winners.dropLast, drawNumber := s.drawNumber - 1,
             auditWinners := s.auditWinners.map List.dropLast }

/-- `handleRestart` from `Index.tsx`: unconditionally clear winners, draw
counter, current winner and audit log, and clear the lock flag. The
handler itself contains no lock check; the restart dialog is only
reachable through a button rendered when the session is unlocked. -/
def handleRestart (s : RaffleState) : RaffleState :=
  { s with winners := [], drawNumber := 0, currentWinner := none,
           auditWinners := none, isLocked := false }

/-- `handleLock` from `Index.tsx`. -/
def handleLock (s : RaffleState) : RaffleState :=
  { s with isLocked := true }

/-- `startPresenterMode` from `Index.tsx` for an already-initialized
session (seed and audit snapshot exist): guard against an empty pool and
against a no-repeats pool smaller than the requested winner count, then
open the presenter in normal (non-replay) mode. -/
def startPresenterMode (s : RaffleState) : RaffleState :=
  if s.participants.isEmpty then s
  else if s.participants.length < s.config.numberOfWinners ∧ s.config.allowRepeats = false
  then s
  else
    { s with showPresenter := true, currentWinner := none, isDrawing := false,
             isReplayMode := false }

/-- `startReplayMode` from `Index.tsx`: refuse when there are no winners;
otherwise enter replay mode — cursor and draw counter reset to 0 — and
open the presenter. The winners list is untouched. -/
def startReplayMode (s : RaffleState) : RaffleState :=
  if s.winners.isEmpty then s
  else
    { s with isReplayMode := true, replayIndex := 0, drawNumber := 0,
             currentWinner := none, isDrawing := false, showPresenter := true }

/-- `exitPresenterMode` from `Index.tsx`: leave the presenter and replay
mode; when pending bulk winners exist, commit them as the winners list,
set the draw counter to their count and rebuild the audit-log winner
projection from them (`createAuditLog`). -/
def exitPresenterMode (s : RaffleState) : RaffleState :=
  let s := { s with showPresenter := false, isReplayMode := false,
                    isDrawing := false, currentWinner := none }
  if s.bulkWinners.isEmpty then s
  else
    { s with winners := s.bulkWinners, drawNumber := s.bulkWinners.length,
             auditWinners :=
               some (s.bulkWinners.map fun w => auditEntryOf w.participant w.drawNumber),
             bulkWinners := [] }

/-- The selection loop of `handleBulkDraw`: iteration `i` draws with the
accumulated exclusion set (or a fresh empty set when repeats are allowed),
stops on a failed draw, records draw number `i + 1` with the same bonus
rule as the sequential path, and grows the exclusion set when repeats are
disallowed. `fallbacks i` models iteration `i`'s `Math.random()` fallback. -/
def bulkLoop (ps : List Participant) (seed : String) (cfg : RaffleConfig)
    (fallbacks : Nat → Nat) : Nat → Nat → Finset String → List Winner
  | _, 0, _ => []
  | i, n + 1, ex =>
      match weightedRandomSelect ps seed (if cfg.allowRepeats then ∅ else ex)
          (fallbacks i) with
      | none => []
      | some w =>
          ⟨w, i + 1, decide (0 < cfg.bonusRoundInterval ∧
            (i + 1) % cfg.bonusRoundInterval = 0)⟩ ::
            bulkLoop ps seed cfg fallbacks (i + 1) n
              (if cfg.allowRepeats then ex else insert w.email ex)

/-- `handleBulkDraw` from `Index.tsx`: guard against an empty pool, then
run the selection loop `min(numberOfWinners, allowRepeats ? numberOfWinners
: participants.length)` times into the pending `bulkWinners` list. -/
def handleBulkDraw (fallbacks : Nat → Nat) (s : RaffleState) : RaffleState :=
  if s.participants.isEmpty then s
  else
    let numToDraw :=
      min s.config.numberOfWinners
        (if s.config.allowRepeats then s.config.numberOfWinners
         else s.participants.length)
    { s with bulkWinners := bulkLoop s.participants s.seed s.config fallbacks 0 numToDraw ∅ }

/-- The user-triggered operations of a draw session. The `Nat` payloads
carry the `Math.random()` fallback values the corresponding selector
calls would observe. -/
inductive UIOp where
  | drawNext (fallback : Nat)
  | spinComplete
  | undo
  | restart
  | lock
  | startPresenter
  | startReplay
  | exitPresenter
  | bulkDraw (fallbacks : Nat → Nat)

/-- Whether the UI can fire an operation in a given state, as rendered by
`Index.tsx`, `WinnersReview.tsx` and the presenter component: draw/spin
and bulk-draw controls exist only inside the presenter (sequential draw
only in sequential reveal mode and not while a spin is in flight; the
spin-complete callback only fires for a running spin; bulk draw only in
bulk reveal mode); undo/restart/lock buttons are rendered in the main
view only while unlocked (lock additionally needs winners); the start
button is disabled while locked; replay is offered whenever the main view
shows winners, locked or not. -/
def enabled (s : RaffleState) : UIOp → Bool
  | .drawNext _ =>
      s.showPresenter && decide (s.config.revealMode = RevealMode.sequential) &&
        !s.isDrawing
  | .spinComplete => s.showPresenter && s.isDrawing
  | .undo => !s.showPresenter && !s.isLocked
  | .restart => !s.showPresenter && !s.isLocked
  | .lock => !s.showPresenter && !s.isLocked && !s.winners.isEmpty
  | .startPresenter => !s.showPresenter && !s.isLocked
  | .startReplay => !s.showPresenter
  | .exitPresenter => s.showPresenter
  | .bulkDraw _ =>
      s.showPresenter && decide (s.config.revealMode = RevealMode.bulk)

/-- The raw handler an operation dispatches to. -/
def applyOp : UIOp → RaffleState → RaffleState
  | .drawNext fb => handleDrawNext fb
  | .spinComplete => handleSpinComplete
  | .undo => handleUndo
  | .restart => handleRestart
  | .lock => handleLock
  | .startPresenter => startPresenterMode
  | .startReplay => startReplayMode
  | .exitPresenter => exitPresenterMode
  | .bulkDraw fbs => handleBulkDraw fbs

/-- One UI-guarded step: the handler fires only when its control is
enabled, otherwise the state is unchanged. -/
def uiStep (s : RaffleState) (op : UIOp) : RaffleState :=
  if enabled s op then applyOp op s else s

/-- Run a sequence of UI-guarded steps. -/
def runOps (s : RaffleState) (ops : List UIOp) : RaffleState :=
  ops.foldl uiStep s

/-- Sample participant with one ticket. -/
def demoA : Participant := ⟨"Alice", "alice@example.com", 1⟩

/-- Sample participant with nine tickets. -/
def demoB : Participant := ⟨"Bob", "bob@example.com", 9⟩

/-- Sample participant with one ticket (uniform pool). -/
def demoX : Participant := ⟨"Xena", "xena@example.com", 1⟩

/-- Sample participant with one ticket (uniform pool). -/
def demoY : Participant := ⟨"Yuri", "yuri@example.com", 1⟩

/-- A freshly-started two-winner no-repeats session over `[demoA, demoB]`
with seed string `"1"`. -/
def demoSession : RaffleState where
  participants := [demoA, demoB]
  config := ⟨2, false, 0, RevealMode.sequential⟩
  seed := "1"
  winners := []
  drawNumber := 0
  isLocked := false
  auditWinners := some []
  currentWinner := none
  isDrawing := false
  showPresenter := false
  isReplayMode := false
  replayIndex := 0
  bulkWinners := []

/-- A locked session holding one recorded winner, in the main view. -/
def lockedSession : RaffleState :=
  { demoSession with
      winners := [⟨demoB, 1, false⟩], drawNumber := 1, isLocked := true,
      auditWinners := some [auditEntryOf demoB 1] }

/-- A session mid-spin: a current winner is pending confirmation. -/
def pendingSession : RaffleState :=
  { demoSession with currentWinner := some demoB, isDrawing := true,
                     showPresenter := true }

/-- A session like `demoSession` but allowing repeat winners. -/
def repeatSession : RaffleState :=
  { demoSession with config := ⟨3, true, 0, RevealMode.sequential⟩ }

/-- A fresh session over the uniform pool `[demoX, demoY]` with bonus
interval 2. -/
def bonusSession : RaffleState :=
  { demoSession with participants := [demoX, demoY],
                     config := ⟨2, false, 2, RevealMode.sequential⟩ }

/-- An operation sequence that records one winner, replays the session and
exits the replay immediately, then records a second winner: an aborted
replay leaves the draw counter at 0, desynchronizing it from the winners
list length. -/
def abortedReplayOps : List UIOp :=
  [UIOp.startPresenter, UIOp.drawNext 0, UIOp.spinComplete, UIOp.exitPresenter,
   UIOp.startReplay, UIOp.exitPresenter,
   UIOp.startPresenter, UIOp.drawNext 0, UIOp.spinComplete]

/-- The emails of a list of winners, in order. -/
def winnerEmails (l : List Winner) : List String := l.map fun w => w.participant.email

/-- The no-duplicate invariant for a no-repeats session: recorded winners
and pending bulk winners have pairwise-distinct emails, and any pending
current winner of an in-flight normal-mode spin is not yet recorded. -/
def NoDupInv (s : RaffleState) : Prop :=
  (winnerEmails s.winners).Nodup ∧ (winnerEmails s.bulkWinners).Nodup ∧
  ∀ c : Participant, s.isDrawing = true → s.isReplayMode = false →
    s.currentWinner = some c → c.email ∉ winnerEmails s.winners

/-- The configuration of a locked sequential-mode session sitting in the
main view (or replaying): locked, no pending bulk winners, presenter only
open for replay. -/
def LockedInv (s : RaffleState) : Prop :=
  s.isLocked = true ∧ s.bulkWinners = [] ∧
  (s.showPresenter = true → s.isReplayMode = true) ∧
  s.config.revealMode = RevealMode.sequential

/-- The exact target value `r * totalWeight` computed by
`weightedRandomSelect` for the given arguments. -/
def targetOf (ps : List Participant) (seed : String) (ex : Finset String) (fb : Nat) : ℚ :=
  ((selectRandom seed ex.card fb : ℚ) / 4294967296) * (totalWeightOf (eligibleOf ps ex) : ℚ)

/-- Whether an operation is the replay-entry operation. -/
def UIOp.isStartReplay : UIOp → Bool
  | UIOp.startReplay => true
  | _ => false

/-- Bonus flags of recorded and pending bulk winners agree with the
`drawNumber % k` cadence for interval `k`. -/
def BonusInv (k : Nat) (s : RaffleState) : Prop :=
  (∀ w ∈ s.winners, w.isBonusPrize = decide (0 < k ∧ w.drawNumber % k = 0)) ∧
  ∀ w ∈ s.bulkWinners, w.isBonusPrize = decide (0 < k ∧ w.drawNumber % k = 0)

/-- The draw counter equals the winners-list length and every recorded or
pending bulk winner's `drawNumber` equals its 1-based list position; holds
along replay-free runs. -/
def PosInv (s : RaffleState) : Prop :=
  s.drawNumber = s.winners.length ∧
  (∀ j x, s.winners[j]? = some x → x.drawNumber = j + 1) ∧
  (∀ j x, s.bulkWinners[j]? = some x → x.drawNumber = j + 1) ∧
  s.isReplayMode = false

theorem cumFind_eq_exec (k W : Nat) (l : List Participant) (c : Nat) :
    cumFind ((k : ℚ) / 4294967296 * (W : ℚ)) (c : ℚ) l = cumFindExec (k * W) c l := by
  induction l generalizing c with
  | nil => rfl
  | cons p rest ih =>
      have hcond : ((k : ℚ) / 4294967296 * (W : ℚ) ≤ (c : ℚ) + (p.entries : ℚ)) ↔
          k * W ≤ (c + p.entries) * 4294967296 := by
        rw [div_mul_eq_mul_div, div_le_iff₀ (by norm_num : (0 : ℚ) < 4294967296)]
        exact_mod_cast Iff.rfl
      unfold cumFind cumFindExec
      by_cases h : (k : ℚ) / 4294967296 * (W : ℚ) ≤ (c : ℚ) + (p.entries : ℚ)
      · rw [if_pos h, if_pos (hcond.mp h)]
      · rw [if_neg h, if_neg fun hc => h (hcond.mpr hc)]
        have hcast : (c : ℚ) + (p.entries : ℚ) = ((c + p.entries : ℕ) : ℚ) := by
          push_cast
          ring
        rw [hcast]
        exact ih (c + p.entries)

theorem weightedRandomSelect_eq_exec (ps : List Participant) (seed : String)
    (ex : Finset String) (fb : Nat) :
    weightedRandomSelect ps seed ex fb = wrsExec ps seed ex fb := by
  unfold weightedRandomSelect wrsExec
  by_cases h0 : (eligibleOf ps ex).isEmpty
  · simp [h0]
  · by_cases hW : totalWeightOf (eligibleOf ps ex) = 0
    · simp [h0, hW]
    · have hfind := cumFind_eq_exec (selectRandom seed ex.card fb)
        (totalWeightOf (eligibleOf ps ex)) (eligibleOf ps ex) 0
      simp only [Nat.cast_zero] at hfind
      simp [h0, hW, hfind]

theorem cumFind_mem {t c : ℚ} {l : List Participant} {p : Participant}
    (h : cumFind t c l = some p) : p ∈ l := by
  induction l generalizing c with
  | nil => simp [cumFind] at h
  | cons q rest ih =>
      unfold cumFind at h
      by_cases hq : t ≤ c + (q.entries : ℚ)
      · rw [if_pos hq] at h
        cases h
        exact List.mem_cons_self _ _
      · rw [if_neg hq] at h
        exact List.mem_cons_of_mem q (ih h)

/-- Any selected participant comes from the eligible sub-pool. -/
theorem weightedRandomSelect_mem_eligible {ps : List Participant} {seed : String}
    {ex : Finset String} {fb : Nat} {p : Participant}
    (h : weightedRandomSelect ps seed ex fb = some p) : p ∈ eligibleOf ps ex := by
  unfold weightedRandomSelect at h
  by_cases h0 : (eligibleOf ps ex).isEmpty
  · simp [h0] at h
  · by_cases hW : totalWeightOf (eligibleOf ps ex) = 0
    · simp [h0, hW] at h
    · simp only [h0, hW, if_false, Bool.false_eq_true] at h
      revert h
      cases hfind : cumFind ((selectRandom seed ex.card fb : ℚ) / 4294967296 *
          (totalWeightOf (eligibleOf ps ex) : ℚ)) 0 (eligibleOf ps ex) with
      | some q =>
          intro h
          cases h
          exact cumFind_mem hfind
      | none =>
          intro h
          obtain ⟨hne, heq⟩ := List.mem_getLast?_eq_getLast (Option.mem_def.mpr h)
          exact heq ▸ List.getLast_mem hne

/-- The selector never returns an excluded participant. -/
theorem weightedRandomSelect_not_excluded {ps : List Participant} {seed : String}
    {ex : Finset String} {fb : Nat} {p : Participant}
    (h : weightedRandomSelect ps seed ex fb = some p) : p.email ∉ ex := by
  have hmem := weightedRandomSelect_mem_eligible h
  unfold eligibleOf at hmem
  have hdec := (List.mem_filter.mp hmem).2
  simpa using hdec

/-- The selected participant belongs to the pool. -/
theorem weightedRandomSelect_mem_pool {ps : List Participant} {seed : String}
    {ex : Finset String} {fb : Nat} {p : Participant}
    (h : weightedRandomSelect ps seed ex fb = some p) : p ∈ ps :=
  List.mem_of_mem_filter (weightedRandomSelect_mem_eligible h)

/-- With a seed that parses to a nonzero integer, the `Math.random()`
fallback is irrelevant: the selector is a function of pool, seed and
exclusion set. -/
theorem weightedRandomSelect_fallback_irrel {seed : String} {n : Int}
    (hparse : jsParseInt seed = some n) (hn : n ≠ 0)
    (ps : List Participant) (ex : Finset String) (fb₁ fb₂ : Nat) :
    weightedRandomSelect ps seed ex fb₁ = weightedRandomSelect ps seed ex fb₂ := by
  unfold weightedRandomSelect selectRandom seedNumOf
  rw [hparse]
  simp [hn]


theorem mergeSort_eq_of_perm {l₁ l₂ : List String} (h : l₁.Perm l₂) :
    l₁.mergeSort = l₂.mergeSort := by
  exact List.eq_of_perm_of_sorted
    ((List.mergeSort_perm l₁ _).trans (h.trans (List.mergeSort_perm l₂ _).symm))
    (List.sorted_mergeSort' l₁) (List.sorted_mergeSort' l₂)

/-- C5: the checksum is order-independent — permuting the participant list
leaves `calculateChecksum` (sort the `name|email|entries` lines, join with
newline, hash, take a 16-character prefix) unchanged, for any digest
function. -/
theorem calculateChecksum_perm_invariant (sha256hex : String → String)
    (ps qs : List Participant) (h : ps.Perm qs) :
    calculateChecksum sha256hex ps = calculateChecksum sha256hex qs := by
  unfold calculateChecksum checksumInput
  rw [mergeSort_eq_of_perm (h.map participantLine)]

/-- C5 witness: the checksum of `[demoA, demoB]` equals that of the
swapped list. -/
theorem calculateChecksum_perm_invariant_witness :
    [demoA, demoB].Perm [demoB, demoA] ∧
    calculateChecksum (fun s => s) [demoA, demoB] =
      calculateChecksum (fun s => s) [demoB, demoA] :=
  ⟨by decide, calculateChecksum_perm_invariant (fun s => s) _ _ (by decide)⟩

/-- C8: prize assignment — "same" mode returns the configured prize at
every position; "sequential" mode returns `prizes[min(position,
prizes.length - 1)]` for a non-empty list (hence the last prize for any
position past the end) and `none` for an empty list or a missing config. -/
theorem getPrizeForWinner_spec (cfg : PrizeConfig) (pz : Prize) (l : List Prize)
    (i : Nat) :
    (cfg.mode = PrizeMode.same → cfg.samePrize = some pz →
      getPrizeForWinner (some cfg) i = some pz) ∧
    (cfg.mode = PrizeMode.sequential → cfg.sequentialPrizes = some l → l ≠ [] →
      getPrizeForWinner (some cfg) i = l[min i (l.length - 1)]? ∧
      (l.length - 1 ≤ i → getPrizeForWinner (some cfg) i = l.getLast?)) ∧
    (cfg.mode = PrizeMode.sequential → cfg.sequentialPrizes = some [] →
      getPrizeForWinner (some cfg) i = none) ∧
    getPrizeForWinner none i = none := by
  refine ⟨?_, ?_, ?_, rfl⟩
  · intro hm hs
    simp [getPrizeForWinner, hm, hs]
  · intro hm hs hne
    have hmain : getPrizeForWinner (some cfg) i = l[min i (l.length - 1)]? := by
      simp [getPrizeForWinner, hm, hs, List.length_eq_zero, hne]
    refine ⟨hmain, fun hle => ?_⟩
    rw [hmain, Nat.min_eq_right hle, List.getLast?_eq_getElem?]
  · intro hm hs
    simp [getPrizeForWinner, hm, hs]

/-- C8 witness: a sequential config with three prizes clamps position 10
to the third prize. -/
theorem getPrizeForWinner_spec_witness :
    getPrizeForWinner
      (some ⟨PrizeMode.sequential, none, some [⟨"p1", none⟩, ⟨"p2", none⟩, ⟨"p3", none⟩]⟩)
      10 = some ⟨"p3", none⟩ := by
  have h := ((getPrizeForWinner_spec ⟨PrizeMode.sequential, none,
      some [⟨"p1", none⟩, ⟨"p2", none⟩, ⟨"p3", none⟩]⟩ ⟨"p1", none⟩
      [⟨"p1", none⟩, ⟨"p2", none⟩, ⟨"p3", none⟩] 10).2.1 rfl rfl (by decide)).1
  rw [h]
  decide

/-- C6: recording a winner then undoing restores the winners list, the
audit-log winners and the draw counter exactly, in any unlocked
non-replay state with a pending winner; and undo on an empty winners list
is a complete no-op. -/
theorem undo_roundtrip (s t : RaffleState) (cw : Participant)
    (hlock : s.isLocked = false) (hreplay : s.isReplayMode = false)
    (hcw : s.currentWinner = some cw) (ht : t.winners = []) :
    (handleUndo (handleSpinComplete s)).winners = s.winners ∧
    (handleUndo (handleSpinComplete s)).auditWinners = s.auditWinners ∧
    (handleUndo (handleSpinComplete s)).drawNumber = s.drawNumber ∧
    handleUndo t = t := by
  have hsc : handleSpinComplete s =
      { s with isDrawing := false,
               winners := s.winners ++ [⟨cw, s.drawNumber + 1,
                 decide (0 < s.config.bonusRoundInterval ∧
                   (s.drawNumber + 1) % s.config.bonusRoundInterval = 0)⟩],
               drawNumber := s.drawNumber + 1,
               auditWinners := s.auditWinners.map
                 (· ++ [auditEntryOf cw (s.drawNumber + 1)]) } := by
    unfold handleSpinComplete
    simp [hcw, hreplay]
  rw [hsc]
  unfold handleUndo
  simp only [List.isEmpty_iff, List.append_ne_nil_of_right_ne_nil, hlock]
  refine ⟨by simp [List.dropLast_concat], ?_, by simp, by simp [ht]⟩
  cases ha : s.auditWinners with
  | none => simp
  | some l => simp [List.dropLast_concat]

/-- C6 witness: the round trip at `pendingSession`, and undo at
`demoSession` (empty winners list). -/
theorem undo_roundtrip_witness :
    pendingSession.isLocked = false ∧
    (handleUndo (handleSpinComplete pendingSession)).winners = pendingSession.winners ∧
    handleUndo demoSession = demoSession :=
  ⟨rfl,
   (undo_roundtrip pendingSession demoSession demoB rfl rfl rfl rfl).1,
   (undo_roundtrip pendingSession demoSession demoB rfl rfl rfl rfl).2.2.2⟩

/-- C1 (amended): for every seed string that `parseInt` reads as a nonzero
integer, the selector's result is a pure function of pool, seed and
exclusion set — repeated calls agree regardless of the `Math.random()`
fallback values. -/
theorem weightedRandomSelect_deterministic (seed : String) (n : Int)
    (hparse : jsParseInt seed = some n) (hn : n ≠ 0)
    (ps : List Participant) (ex : Finset String) (fb₁ fb₂ : Nat) :
    weightedRandomSelect ps seed ex fb₁ = weightedRandomSelect ps seed ex fb₂ :=
  weightedRandomSelect_fallback_irrel hparse hn ps ex fb₁ fb₂

/-- C1 counterexample: with the seed string `"0"` (which `parseInt` reads
as the falsy `0`, triggering the `Math.random()` fallback), two calls on
the same pool and exclusion set can return different participants. -/
theorem weightedRandomSelect_seed_zero_nondeterministic :
    weightedRandomSelect [demoA, demoB] "0" ∅ 7 ≠
      weightedRandomSelect [demoA, demoB] "0" ∅ 0 := by
  rw [weightedRandomSelect_eq_exec, weightedRandomSelect_eq_exec]
  decide

/-- C1 witness: with seed `"1"` the selector agrees across two calls with
different fallback values. -/
theorem weightedRandomSelect_deterministic_witness :
    jsParseInt "1" = some 1 ∧ (1 : Int) ≠ 0 ∧
    weightedRandomSelect [demoA, demoB] "1" ∅ 3 =
      weightedRandomSelect [demoA, demoB] "1" ∅ 5 :=
  ⟨by decide, by decide,
   weightedRandomSelect_deterministic "1" 1 (by decide) (by decide) [demoA, demoB] ∅ 3 5⟩

theorem handleDrawNext_replay_done {s : RaffleState} (fb : Nat)
    (h : s.isReplayMode = true) (hle : s.winners.length ≤ s.replayIndex) :
    handleDrawNext fb s = { s with currentWinner := none } := by
  unfold handleDrawNext
  simp [h, hle]

theorem handleDrawNext_replay_play {s : RaffleState} (fb : Nat)
    (h : s.isReplayMode = true) (hlt : s.replayIndex < s.winners.length) :
    handleDrawNext fb s =
      { s with currentWinner := (s.winners[s.replayIndex]?).map Winner.participant,
               isDrawing := true } := by
  unfold handleDrawNext
  simp [h, Nat.not_le.mpr hlt]

theorem handleDrawNext_complete {s : RaffleState} (fb : Nat)
    (h : s.isReplayMode = false) (hc : s.config.numberOfWinners ≤ s.winners.length) :
    handleDrawNext fb s = { s with currentWinner := none } := by
  unfold handleDrawNext
  simp [h, hc]

theorem handleDrawNext_select {s : RaffleState} (fb : Nat)
    (h : s.isReplayMode = false) (hc : ¬ s.config.numberOfWinners ≤ s.winners.length) :
    handleDrawNext fb s =
      match weightedRandomSelect s.participants s.seed (excludeSetOf s) fb with
      | some w => { s with currentWinner := some w, isDrawing := true }
      | none => { s with currentWinner := none, isDrawing := false } := by
  unfold handleDrawNext
  simp only [h, Bool.false_eq_true, if_false, reduceIte, hc]
  rfl

theorem handleSpinComplete_none {s : RaffleState} (h : s.currentWinner = none) :
    handleSpinComplete s = { s with isDrawing := false } := by
  unfold handleSpinComplete
  simp [h]

theorem handleSpinComplete_replay {s : RaffleState} {c : Participant}
    (hcw : s.currentWinner = some c) (hr : s.isReplayMode = true) :
    handleSpinComplete s =
      { s with isDrawing := false, drawNumber := s.replayIndex + 1,
               replayIndex := s.replayIndex + 1, currentWinner := none } := by
  unfold handleSpinComplete
  simp [hcw, hr]

theorem handleSpinComplete_record {s : RaffleState} {c : Participant}
    (hcw : s.currentWinner = some c) (hr : s.isReplayMode = false) :
    handleSpinComplete s =
      { s with isDrawing := false, winners := s.winners ++ [recordedWinner s c],
               drawNumber := s.drawNumber + 1,
               auditWinners := s.auditWinners.map
                 (· ++ [auditEntryOf c (s.drawNumber + 1)]) } := by
  unfold handleSpinComplete recordedWinner
  simp [hcw, hr]

theorem handleUndo_noop {s : RaffleState} (h : s.winners = [] ∨ s.isLocked = true) :
    handleUndo s = s := by
  unfold handleUndo
  rcases h with h | h <;> simp [h]

theorem handleUndo_pop {s : RaffleState} (h1 : s.winners ≠ []) (h2 : s.isLocked = false) :
    handleUndo s =
      { s with winners := s.winners.dropLast, drawNumber := s.drawNumber - 1,
               auditWinners := s.auditWinners.map List.dropLast } := by
  unfold handleUndo
  simp [h1, h2]

theorem startPresenterMode_open {s : RaffleState} (h1 : s.participants ≠ [])
    (h2 : ¬(s.participants.length < s.config.numberOfWinners ∧
      s.config.allowRepeats = false)) :
    startPresenterMode s =
      { s with showPresenter := true, currentWinner := none, isDrawing := false,
               isReplayMode := false } := by
  unfold startPresenterMode
  simp [h1, h2]

theorem startReplayMode_noop {s : RaffleState} (h : s.winners = []) :
    startReplayMode s = s := by
  unfold startReplayMode
  simp [h]

theorem startReplayMode_enter {s : RaffleState} (h : s.winners ≠ []) :
    startReplayMode s =
      { s with isReplayMode := true, replayIndex := 0, drawNumber := 0,
               currentWinner := none, isDrawing := false, showPresenter := true } := by
  unfold startReplayMode
  simp [h]

theorem exitPresenterMode_plain {s : RaffleState} (h : s.bulkWinners = []) :
    exitPresenterMode s =
      { s with showPresenter := false, isReplayMode := false, isDrawing := false,
               currentWinner := none } := by
  unfold exitPresenterMode
  simp [h]

theorem exitPresenterMode_commit {s : RaffleState} (h : s.bulkWinners ≠ []) :
    exitPresenterMode s =
      { s with showPresenter := false, isReplayMode := false, isDrawing := false,
               currentWinner := none, winners := s.bulkWinners,
               drawNumber := s.bulkWinners.length,
               auditWinners := some (s.bulkWinners.map fun w =>
                 auditEntryOf w.participant w.drawNumber),
               bulkWinners := [] } := by
  unfold exitPresenterMode
  simp [h]

theorem handleBulkDraw_noop {s : RaffleState} (fbs : Nat → Nat)
    (h : s.participants = []) : handleBulkDraw fbs s = s := by
  unfold handleBulkDraw
  simp [h]

theorem handleBulkDraw_run {s : RaffleState} (fbs : Nat → Nat)
    (h : s.participants ≠ []) :
    handleBulkDraw fbs s =
      { s with bulkWinners :=
          (bulkLoop s.participants s.seed s.config fbs 0
            (min s.config.numberOfWinners
              (if s.config.allowRepeats then s.config.numberOfWinners
               else s.participants.length)) ∅) } := by
  unfold handleBulkDraw
  simp [h]

theorem uiStep_immutables (s : RaffleState) (op : UIOp) :
    (uiStep s op).config = s.config ∧ (uiStep s op).participants = s.participants ∧
    (uiStep s op).seed = s.seed := by
  cases op <;>
    simp only [uiStep, applyOp, handleDrawNext, handleSpinComplete, handleUndo,
      handleRestart, handleLock, startPresenterMode, startReplayMode,
      exitPresenterMode, handleBulkDraw] <;>
    (repeat' split) <;> simp

theorem bulkLoop_emails (ps : List Participant) (seed : String) (cfg : RaffleConfig)
    (fbs : Nat → Nat) (hrep : cfg.allowRepeats = false) :
    ∀ n i ex, (∀ w ∈ bulkLoop ps seed cfg fbs i n ex, w.participant.email ∉ ex) ∧
      (winnerEmails (bulkLoop ps seed cfg fbs i n ex)).Nodup := by
  intro n
  induction n with
  | zero =>
      intro i ex
      constructor <;> simp [bulkLoop, winnerEmails]
  | succ n ih =>
      intro i ex
      simp only [bulkLoop, hrep, if_false, Bool.false_eq_true]
      cases hsel : weightedRandomSelect ps seed ex (fbs i) with
      | none => constructor <;> simp [winnerEmails]
      | some w =>
          obtain ⟨ihm, ihn⟩ := ih (i + 1) (insert w.email ex)
          have hwex : w.email ∉ ex := weightedRandomSelect_not_excluded hsel
          constructor
          · intro w' hw'
            rcases List.mem_cons.mp hw' with hform | htail
            · subst hform
              exact hwex
            · intro hmem
              exact ihm w' htail (Finset.mem_insert_of_mem hmem)
          · rw [show winnerEmails (⟨w, i + 1, decide (0 < cfg.bonusRoundInterval ∧
                (i + 1) % cfg.bonusRoundInterval = 0)⟩ ::
                bulkLoop ps seed cfg fbs (i + 1) n (insert w.email ex)) =
                w.email :: winnerEmails (bulkLoop ps seed cfg fbs (i + 1) n
                  (insert w.email ex)) from rfl]
            refine List.Nodup.cons ?_ ihn
            intro hmem
            obtain ⟨w', hw', heq⟩ := List.mem_map.mp hmem
            have := ihm w' hw'
            rw [heq] at this
            exact this (Finset.mem_insert_self _ _)

theorem noDupInv_uiStep (s : RaffleState) (op : UIOp)
    (hrep : s.config.allowRepeats = false) (h : NoDupInv s) : NoDupInv (uiStep s op) := by
  obtain ⟨h1, h2, h3⟩ := h
  unfold uiStep
  by_cases he : enabled s op = true
  case neg => simpa [he] using ⟨h1, h2, h3⟩
  rw [if_pos he]
  cases op with
  | drawNext fb =>
      show NoDupInv (handleDrawNext fb s)
      by_cases hr : s.isReplayMode = true
      · by_cases hle : s.winners.length ≤ s.replayIndex
        · rw [handleDrawNext_replay_done fb hr hle]
          exact ⟨h1, h2, by simp⟩
        · rw [handleDrawNext_replay_play fb hr (Nat.not_le.mp hle)]
          exact ⟨h1, h2, by simp [hr]⟩
      · have hr' : s.isReplayMode = false := by simpa using hr
        by_cases hc : s.config.numberOfWinners ≤ s.winners.length
        · rw [handleDrawNext_complete fb hr' hc]
          exact ⟨h1, h2, by simp⟩
        · rw [handleDrawNext_select fb hr' hc]
          cases hsel : weightedRandomSelect s.participants s.seed (excludeSetOf s) fb with
          | some w =>
              refine ⟨h1, h2, ?_⟩
              intro c _ _ hc hmem
              simp only [Option.some.injEq] at hc
              subst hc
              have hnx := weightedRandomSelect_not_excluded hsel
              apply hnx
              simp only [excludeSetOf, hrep, Bool.false_eq_true, if_false, reduceIte]
              rw [List.mem_toFinset]
              simpa [winnerEmails] using hmem
          | none => exact ⟨h1, h2, by simp⟩
  | spinComplete =>
      show NoDupInv (handleSpinComplete s)
      cases hcw : s.currentWinner with
      | none =>
          rw [handleSpinComplete_none hcw]
          exact ⟨h1, h2, by simp⟩
      | some c =>
          by_cases hr : s.isReplayMode = true
          · rw [handleSpinComplete_replay hcw hr]
            exact ⟨h1, h2, by simp⟩
          · have hr' : s.isReplayMode = false := by simpa using hr
            rw [handleSpinComplete_record hcw hr']
            have hsd : enabled s UIOp.spinComplete = true := he
            simp only [enabled, Bool.and_eq_true] at hsd
            have hnotin : c.email ∉ winnerEmails s.winners := h3 c hsd.2 hr' hcw
            refine ⟨?_, h2, by simp⟩
            rw [show winnerEmails (s.winners ++ [recordedWinner s c]) =
                winnerEmails s.winners ++ [c.email] from by
              simp [winnerEmails, recordedWinner]]
            simpa [List.nodup_append] using ⟨h1, fun hx => hnotin hx⟩
  | undo =>
      show NoDupInv (handleUndo s)
      by_cases hg : s.winners = [] ∨ s.isLocked = true
      · rw [handleUndo_noop hg]
        exact ⟨h1, h2, h3⟩
      · push_neg at hg
        have h2' : s.isLocked = false := by simpa using hg.2
        rw [handleUndo_pop hg.1 h2']
        have hsub : (winnerEmails s.winners.dropLast).Sublist (winnerEmails s.winners) :=
          (List.dropLast_sublist _).map _
        refine ⟨List.Nodup.sublist hsub h1, h2, ?_⟩
        intro c hd hr hc hmem
        exact h3 c hd hr hc (hsub.mem hmem)
  | restart =>
      show NoDupInv (handleRestart s)
      exact ⟨by simp [winnerEmails, handleRestart], by simpa [handleRestart] using h2,
        by simp [handleRestart]⟩
  | lock =>
      show NoDupInv (handleLock s)
      exact ⟨h1, h2, fun c hd hr hc => h3 c hd hr hc⟩
  | startPresenter =>
      show NoDupInv (startPresenterMode s)
      unfold startPresenterMode
      split
      · exact ⟨h1, h2, h3⟩
      · split
        · exact ⟨h1, h2, h3⟩
        · exact ⟨h1, h2, by simp⟩
  | startReplay =>
      show NoDupInv (startReplayMode s)
      by_cases hw : s.winners = []
      · rw [startReplayMode_noop hw]
        exact ⟨h1, h2, h3⟩
      · rw [startReplayMode_enter hw]
        exact ⟨h1, h2, by simp⟩
  | exitPresenter =>
      show NoDupInv (exitPresenterMode s)
      by_cases hb : s.bulkWinners = []
      · rw [exitPresenterMode_plain hb]
        exact ⟨h1, h2, by simp⟩
      · rw [exitPresenterMode_commit hb]
        exact ⟨h2, by simp [winnerEmails], by simp⟩
  | bulkDraw fbs =>
      show NoDupInv (handleBulkDraw fbs s)
      by_cases hp : s.participants = []
      · rw [handleBulkDraw_noop fbs hp]
        exact ⟨h1, h2, h3⟩
      · rw [handleBulkDraw_run fbs hp]
        refine ⟨h1, (bulkLoop_emails s.participants s.seed s.config fbs hrep _ _ _).2,
          fun c hd hr hc => h3 c hd hr hc⟩

theorem noDupInv_runOps (s : RaffleState) (ops : List UIOp)
    (hrep : s.config.allowRepeats = false) (h : NoDupInv s) : NoDupInv (runOps s ops) := by
  induction ops generalizing s with
  | nil => exact h
  | cons op ops ih =>
      rw [show runOps s (op :: ops) = runOps (uiStep s op) ops from rfl]
      refine ih _ ?_ (noDupInv_uiStep s op hrep h)
      rw [(uiStep_immutables s op).1]
      exact hrep

/-- C3: in a no-repeats session started with no recorded or pending
winners, every reachable state under UI-guarded operation sequences has
pairwise-distinct recorded winner emails and pairwise-distinct pending
bulk-winner emails; moreover the selector never returns a participant
whose email is excluded. -/
theorem no_duplicate_winners (s : RaffleState) (ops : List UIOp)
    (hrep : s.config.allowRepeats = false)
    (hw : s.winners = []) (hb : s.bulkWinners = []) (hc : s.currentWinner = none) :
    (winnerEmails (runOps s ops).winners).Nodup ∧
    (winnerEmails (runOps s ops).bulkWinners).Nodup ∧
    ∀ (ps : List Participant) (seed : String) (ex : Finset String) (fb : Nat)
      (p : Participant), weightedRandomSelect ps seed ex fb = some p → p.email ∉ ex := by
  have h0 : NoDupInv s :=
    ⟨by simp [hw, winnerEmails], by simp [hb, winnerEmails], by simp [hc]⟩
  obtain ⟨a, b, -⟩ := noDupInv_runOps s ops hrep h0
  exact ⟨a, b, fun ps seed ex fb p hsel => weightedRandomSelect_not_excluded hsel⟩

/-- C3 witness: one guarded draw-and-record pass from `demoSession` keeps
the winner emails duplicate-free. -/
theorem no_duplicate_winners_witness :
    demoSession.config.allowRepeats = false ∧
    (winnerEmails (runOps demoSession
      [UIOp.startPresenter, UIOp.drawNext 0, UIOp.spinComplete]).winners).Nodup :=
  ⟨rfl, (no_duplicate_winners demoSession
    [UIOp.startPresenter, UIOp.drawNext 0, UIOp.spinComplete] rfl rfl rfl rfl).1⟩

theorem lockedInv_uiStep (s : RaffleState) (op : UIOp) (h : LockedInv s) :
    LockedInv (uiStep s op) ∧ (uiStep s op).winners = s.winners ∧
    (uiStep s op).auditWinners = s.auditWinners := by
  obtain ⟨hl, hb, hpr, hm⟩ := h
  unfold uiStep
  by_cases he : enabled s op = true
  case neg =>
      rw [if_neg he]
      exact ⟨⟨hl, hb, hpr, hm⟩, rfl, rfl⟩
  rw [if_pos he]
  cases op with
  | drawNext fb =>
      simp only [applyOp]
      simp only [enabled, Bool.and_eq_true] at he
      have hshow : s.showPresenter = true := he.1.1
      have hr : s.isReplayMode = true := hpr hshow
      by_cases hle : s.winners.length ≤ s.replayIndex
      · rw [handleDrawNext_replay_done fb hr hle]
        exact ⟨⟨hl, hb, fun _ => hr, hm⟩, rfl, rfl⟩
      · rw [handleDrawNext_replay_play fb hr (Nat.not_le.mp hle)]
        exact ⟨⟨hl, hb, fun _ => hr, hm⟩, rfl, rfl⟩
  | spinComplete =>
      simp only [applyOp]
      simp only [enabled, Bool.and_eq_true] at he
      have hr : s.isReplayMode = true := hpr he.1
      cases hcw : s.currentWinner with
      | none =>
          rw [handleSpinComplete_none hcw]
          exact ⟨⟨hl, hb, fun h => hpr h, hm⟩, rfl, rfl⟩
      | some c =>
          rw [handleSpinComplete_replay hcw hr]
          exact ⟨⟨hl, hb, fun h => hpr h, hm⟩, rfl, rfl⟩
  | undo =>
      simp [enabled, hl] at he
  | restart =>
      simp [enabled, hl] at he
  | lock =>
      simp [enabled, hl] at he
  | startPresenter =>
      simp [enabled, hl] at he
  | startReplay =>
      simp only [applyOp]
      by_cases hw : s.winners = []
      · rw [startReplayMode_noop hw]
        exact ⟨⟨hl, hb, hpr, hm⟩, rfl, rfl⟩
      · rw [startReplayMode_enter hw]
        exact ⟨⟨hl, hb, fun _ => rfl, hm⟩, rfl, rfl⟩
  | exitPresenter =>
      simp only [applyOp]
      rw [exitPresenterMode_plain hb]
      exact ⟨⟨hl, hb, by simp, hm⟩, rfl, rfl⟩
  | bulkDraw fbs =>
      simp [enabled, hm] at he

theorem lockedInv_runOps (s : RaffleState) (ops : List UIOp) (h : LockedInv s) :
    LockedInv (runOps s ops) ∧ (runOps s ops).winners = s.winners ∧
    (runOps s ops).auditWinners = s.auditWinners := by
  induction ops generalizing s with
  | nil => exact ⟨h, rfl, rfl⟩
  | cons op ops ih =>
      obtain ⟨h1, h2, h3⟩ := lockedInv_uiStep s op h
      obtain ⟨g1, g2, g3⟩ := ih (uiStep s op) h1
      exact ⟨g1, by rw [show runOps s (op :: ops) = runOps (uiStep s op) ops from rfl, g2, h2],
        by rw [show runOps s (op :: ops) = runOps (uiStep s op) ops from rfl, g3, h3]⟩

/-- C4 (amended): on a locked sequential-mode session in the main view,
`handleUndo` refuses and leaves the state unchanged; the UI-guarded
restart, sequential draw and presenter-start operations are disabled and
change nothing; entering replay still succeeds and keeps the winners and
the lock; and no UI-guarded operation sequence can change the winners
list, the audit-log winners or the lock flag. (The raw `handleRestart`
and `handleDrawNext` handlers themselves carry no lock check — see the
counterexample — the lock is enforced by the UI enabling guards.) -/
theorem lock_amended (s : RaffleState)
    (hl : s.isLocked = true) (hb : s.bulkWinners = []) (hp : s.showPresenter = false)
    (hm : s.config.revealMode = RevealMode.sequential) :
    handleUndo s = s ∧
    uiStep s UIOp.restart = s ∧
    (∀ fb, uiStep s (UIOp.drawNext fb) = s) ∧
    uiStep s UIOp.startPresenter = s ∧
    (s.winners ≠ [] →
      (startReplayMode s).showPresenter = true ∧
      (startReplayMode s).isReplayMode = true ∧
      (startReplayMode s).winners = s.winners ∧
      (startReplayMode s).isLocked = true) ∧
    ∀ ops : List UIOp, (runOps s ops).winners = s.winners ∧
      (runOps s ops).auditWinners = s.auditWinners ∧ (runOps s ops).isLocked = true := by
  have hinv : LockedInv s := ⟨hl, hb, fun hc => absurd hc (by simp [hp]), hm⟩
  refine ⟨handleUndo_noop (Or.inr hl), by simp [uiStep, enabled, hl],
    fun fb => by simp [uiStep, enabled, hp], by simp [uiStep, enabled, hl],
    fun hw => by rw [startReplayMode_enter hw]; exact ⟨rfl, rfl, rfl, hl⟩, ?_⟩
  intro ops
  obtain ⟨g1, g2, g3⟩ := lockedInv_runOps s ops hinv
  exact ⟨g2, g3, g1.1⟩

/-- C4 counterexample: the claim that `Restart` on a locked session fails
and leaves the state unchanged is false for the raw handler —
`handleRestart` on a locked session with one winner clears the winners
list and resets the lock flag. -/
theorem lock_restart_counterexample :
    lockedSession.isLocked = true ∧ lockedSession.winners ≠ [] ∧
    (handleRestart lockedSession).winners = [] ∧
    (handleRestart lockedSession).isLocked = false := by
  decide

/-- C4 witness: the amended lock guarantees at the concrete
`lockedSession`. -/
theorem lock_amended_witness :
    handleUndo lockedSession = lockedSession ∧
    uiStep lockedSession UIOp.restart = lockedSession ∧
    (startReplayMode lockedSession).isReplayMode = true :=
  ⟨(lock_amended lockedSession rfl rfl rfl rfl).1,
   (lock_amended lockedSession rfl rfl rfl rfl).2.1,
   ((lock_amended lockedSession rfl rfl rfl rfl).2.2.2.2.1 (by decide)).2.1⟩

theorem excludeSetOf_repeats {s : RaffleState} (h : s.config.allowRepeats = true) :
    excludeSetOf s = ∅ := by
  simp [excludeSetOf, h]

theorem bulkLoop_repeats (ps : List Participant) (seed : String) (cfg : RaffleConfig)
    (fbs : Nat → Nat) (hrep : cfg.allowRepeats = true)
    {n₀ : Int} (hparse : jsParseInt seed = some n₀) (hn : n₀ ≠ 0)
    {w : Participant} (hsel : weightedRandomSelect ps seed ∅ 0 = some w) :
    ∀ n i ex, ∀ x ∈ bulkLoop ps seed cfg fbs i n ex, x.participant = w := by
  intro n
  induction n with
  | zero => intro i ex x hx; simp [bulkLoop] at hx
  | succ n ih =>
      intro i ex x hx
      rw [show bulkLoop ps seed cfg fbs i (n + 1) ex =
          (match weightedRandomSelect ps seed (if cfg.allowRepeats then ∅ else ex)
              (fbs i) with
           | none => []
           | some w' =>
               ⟨w', i + 1, decide (0 < cfg.bonusRoundInterval ∧
                 (i + 1) % cfg.bonusRoundInterval = 0)⟩ ::
                 bulkLoop ps seed cfg fbs (i + 1) n
                   (if cfg.allowRepeats then ex else insert w'.email ex)) from by
        rw [bulkLoop]] at hx
      rw [hrep, if_pos rfl,
        weightedRandomSelect_fallback_irrel hparse hn ps ∅ (fbs i) 0, hsel] at hx
      rcases List.mem_cons.mp hx with hform | htail
      · rw [hform]
      · exact ih (i + 1) ex x htail

/-- C9: the raw random sample is `mulberry32(seedNum + excludeEmails.size)`
— for a seed parsing to a nonzero integer it depends only on the seed and
the exclusion-set size; consequently, with `allowRepeats = true` every
sequential draw (the exclusion set passed is always empty) selects the
same participant irrespective of already-recorded winners, and every
bulk-draw iteration selects that same single participant. -/
theorem seed_plus_exclusion_size (s : RaffleState) (n : Int)
    (hparse : jsParseInt s.seed = some n) (hn : n ≠ 0)
    (hrep : s.config.allowRepeats = true) :
    (∀ (ex₁ ex₂ : Finset String) (fb₁ fb₂ : Nat), ex₁.card = ex₂.card →
      selectRandom s.seed ex₁.card fb₁ = selectRandom s.seed ex₂.card fb₂) ∧
    (∀ (t : RaffleState) (fb₁ fb₂ : Nat), t.participants = s.participants →
      t.seed = s.seed → t.config = s.config → t.isReplayMode = false →
      s.isReplayMode = false →
      ¬ s.config.numberOfWinners ≤ s.winners.length →
      ¬ t.config.numberOfWinners ≤ t.winners.length →
      (handleDrawNext fb₁ s).currentWinner = (handleDrawNext fb₂ t).currentWinner) ∧
    (∀ (fbs : Nat → Nat) (w : Participant),
      weightedRandomSelect s.participants s.seed ∅ 0 = some w →
      ∀ x ∈ (handleBulkDraw fbs s).bulkWinners, x.participant = w) := by
  refine ⟨?_, ?_, ?_⟩
  · intro ex₁ ex₂ fb₁ fb₂ hcard
    rw [hcard]
    unfold selectRandom seedNumOf
    rw [hparse]
    simp [hn]
  · intro t fb₁ fb₂ hp hs hc htr hsr hslt htlt
    rw [handleDrawNext_select fb₁ hsr hslt, handleDrawNext_select fb₂ htr htlt]
    have hext : excludeSetOf t = ∅ := excludeSetOf_repeats (by rw [hc]; exact hrep)
    rw [excludeSetOf_repeats hrep, hext, hp, hs,
      weightedRandomSelect_fallback_irrel hparse hn s.participants ∅ fb₂ fb₁]
    cases weightedRandomSelect s.participants s.seed ∅ fb₁ <;> simp
  · intro fbs w hsel
    have hpne : s.participants ≠ [] :=
      List.ne_nil_of_mem (weightedRandomSelect_mem_pool hsel)
    rw [handleBulkDraw_run fbs hpne]
    exact fun x hx => bulkLoop_repeats s.participants s.seed s.config fbs hrep
      hparse hn hsel _ _ _ x hx

/-- C10: undo-then-redraw reproduces the undone winner — for an unlocked
non-replay state whose seed parses to a nonzero integer, drawing,
recording, undoing and drawing again yields the same participant, because
the selection is a pure function of pool, seed and exclusion set and the
undo restores the exclusion set. -/
theorem undo_redraw (s : RaffleState) (n : Int) (w : Participant) (fb fb₂ : Nat)
    (hparse : jsParseInt s.seed = some n) (hn : n ≠ 0)
    (hlock : s.isLocked = false) (hreplay : s.isReplayMode = false)
    (hlt : ¬ s.config.numberOfWinners ≤ s.winners.length)
    (hw : (handleDrawNext fb s).currentWinner = some w) :
    (handleDrawNext fb₂
        (handleUndo (handleSpinComplete (handleDrawNext fb s)))).currentWinner
      = some w := by
  rw [handleDrawNext_select fb hreplay hlt] at hw ⊢
  cases hsel : weightedRandomSelect s.participants s.seed (excludeSetOf s) fb with
  | none =>
      rw [hsel] at hw
      simp at hw
  | some w' =>
      rw [hsel] at hw
      simp only [Option.some.injEq] at hw
      subst hw
      show (handleDrawNext fb₂ (handleUndo (handleSpinComplete
        { s with currentWinner := some w', isDrawing := true }))).currentWinner = some w'
      have e2 : handleSpinComplete { s with currentWinner := some w', isDrawing := true } =
          { s with currentWinner := some w', isDrawing := false,
                   winners := s.winners ++ [recordedWinner s w'],
                   drawNumber := s.drawNumber + 1,
                   auditWinners := s.auditWinners.map
                     (· ++ [auditEntryOf w' (s.drawNumber + 1)]) } := by
        rw [handleSpinComplete_record
          (s := { s with currentWinner := some w', isDrawing := true }) rfl hreplay]
        rfl
      rw [e2]
      have e3 : handleUndo
          { s with currentWinner := some w', isDrawing := false,
                   winners := s.winners ++ [recordedWinner s w'],
                   drawNumber := s.drawNumber + 1,
                   auditWinners := s.auditWinners.map
                     (· ++ [auditEntryOf w' (s.drawNumber + 1)]) } =
          { s with currentWinner := some w', isDrawing := false,
                   winners := s.winners,
                   drawNumber := s.drawNumber,
                   auditWinners := (s.auditWinners.map
                     (· ++ [auditEntryOf w' (s.drawNumber + 1)])).map List.dropLast } := by
        rw [handleUndo_pop (s := { s with currentWinner := some w', isDrawing := false, winners := s.winners ++ [recordedWinner s w'], drawNumber := s.drawNumber + 1, auditWinners := s.auditWinners.map (· ++ [auditEntryOf w' (s.drawNumber + 1)]) }) (by simp) hlock]
        simp [List.dropLast_concat]
      rw [e3]
      have hsel2 : weightedRandomSelect s.participants s.seed (excludeSetOf s) fb₂
          = some w' := by
        rw [weightedRandomSelect_fallback_irrel hparse hn s.participants
          (excludeSetOf s) fb₂ fb, hsel]
      rw [handleDrawNext_select (s := { s with currentWinner := some w', isDrawing := false, winners := s.winners, drawNumber := s.drawNumber, auditWinners := (s.auditWinners.map (· ++ [auditEntryOf w' (s.drawNumber + 1)])).map List.dropLast }) fb₂ hreplay hlt]
      rw [show weightedRandomSelect ({ s with currentWinner := some w', isDrawing := false, winners := s.winners, drawNumber := s.drawNumber, auditWinners := (s.auditWinners.map (· ++ [auditEntryOf w' (s.drawNumber + 1)])).map List.dropLast } : RaffleState).participants ({ s with currentWinner := some w', isDrawing := false, winners := s.winners, drawNumber := s.drawNumber, auditWinners := (s.auditWinners.map (· ++ [auditEntryOf w' (s.drawNumber + 1)])).map List.dropLast } : RaffleState).seed (excludeSetOf ({ s with currentWinner := some w', isDrawing := false, winners := s.winners, drawNumber := s.drawNumber, auditWinners := (s.auditWinners.map (· ++ [auditEntryOf w' (s.drawNumber + 1)])).map List.dropLast } : RaffleState)) fb₂ = some w' from hsel2]

/-- C9 witness: at `repeatSession` two draws with different fallback
values agree. -/
theorem c9_witness :
    jsParseInt repeatSession.seed = some 1 ∧
    repeatSession.config.allowRepeats = true ∧
    (handleDrawNext 4 repeatSession).currentWinner =
      (handleDrawNext 9 repeatSession).currentWinner :=
  ⟨by decide, rfl,
   (seed_plus_exclusion_size repeatSession 1 (by decide) (by decide) rfl).2.1
     repeatSession 4 9 rfl rfl rfl rfl rfl (by decide) (by decide)⟩

/-- C10 witness: at `demoSession` the first draw selects `demoB`, and so
does the redraw after record-then-undo. -/
theorem c10_witness :
    (handleDrawNext 0 demoSession).currentWinner = some demoB ∧
    (handleDrawNext 5 (handleUndo (handleSpinComplete
      (handleDrawNext 0 demoSession)))).currentWinner = some demoB := by
  have h0 : (handleDrawNext 0 demoSession).currentWinner = some demoB := by
    rw [handleDrawNext_select 0 rfl (by decide)]
    rw [weightedRandomSelect_eq_exec]
    decide
  exact ⟨h0, undo_redraw demoSession 1 demoB 0 5 (by decide) (by decide)
    rfl rfl (by decide) h0⟩

theorem u32_lt (n : Nat) : u32 n < 4294967296 :=
  Nat.mod_lt _ (by norm_num)

theorem mulberry32_lt (seed : Int) : mulberry32 seed < 4294967296 := by
  have h2 : (4294967296 : Nat) = 2 ^ 32 := by norm_num
  unfold mulberry32
  set t0 := u32ofInt (seed + 0x6D2B79F5) with ht0
  set t1 := imul32 (t0 ^^^ (t0 >>> 15)) (t0 ||| 1) with ht1
  have hlt1 : t1 < 4294967296 := u32_lt _
  set t2 := t1 ^^^ u32 (t1 + imul32 (t1 ^^^ (t1 >>> 7)) (t1 ||| 61)) with ht2
  have hlt2 : t2 < 4294967296 := by
    rw [ht2, h2]
    exact Nat.xor_lt_two_pow (h2 ▸ hlt1) (h2 ▸ u32_lt _)
  rw [h2]
  have hsr : t2 >>> 14 ≤ t2 := by
    rw [Nat.shiftRight_eq_div_pow]
    exact Nat.div_le_self _ _
  exact Nat.xor_lt_two_pow (h2 ▸ hlt2) (lt_of_le_of_lt hsr (h2 ▸ hlt2))

theorem cumFind_first (target : ℚ) :
    ∀ (l : List Participant) (c : ℚ), l ≠ [] →
      target ≤ c + (totalWeightOf l : ℚ) →
      ∃ i, ∃ hi : i < l.length, cumFind target c l = some (l.get ⟨i, hi⟩) ∧
        target ≤ c + (totalWeightOf (l.take (i + 1)) : ℚ) ∧
        ∀ j < i, c + (totalWeightOf (l.take (j + 1)) : ℚ) < target := by
  intro l
  induction l with
  | nil => intro c h; exact absurd rfl h
  | cons p rest ih =>
      intro c _ hle
      by_cases hp : target ≤ c + (p.entries : ℚ)
      · refine ⟨0, by simp, ?_, ?_, ?_⟩
        · simp [cumFind, hp]
        · simpa [totalWeightOf] using hp
        · intro j hj
          omega
      · have hrne : rest ≠ [] := by
          intro h0
          subst h0
          apply hp
          simpa [totalWeightOf] using hle
        have hsum : (totalWeightOf (p :: rest) : ℚ) =
            (p.entries : ℚ) + (totalWeightOf rest : ℚ) := by
          simp [totalWeightOf]
        have hle2 : target ≤ (c + (p.entries : ℚ)) + (totalWeightOf rest : ℚ) := by
          rw [hsum] at hle
          linarith
        obtain ⟨i, hi, hfind, hcum, hprev⟩ := ih (c + (p.entries : ℚ)) hrne hle2
        refine ⟨i + 1, Nat.succ_lt_succ hi, ?_, ?_, ?_⟩
        · rw [show cumFind target c (p :: rest) =
              cumFind target (c + (p.entries : ℚ)) rest from by simp [cumFind, hp]]
          rw [hfind]
          rfl
        · rw [show (p :: rest).take (i + 1 + 1) = p :: rest.take (i + 1) from rfl]
          rw [show (totalWeightOf (p :: rest.take (i + 1)) : ℚ) =
              (p.entries : ℚ) + (totalWeightOf (rest.take (i + 1)) : ℚ) from by
            simp [totalWeightOf]]
          linarith
        · intro j hj
          cases j with
          | zero =>
              have hlt := lt_of_not_le hp
              simpa [totalWeightOf] using hlt
          | succ k =>
              have hk : k < i := Nat.succ_lt_succ_iff.mp hj
              have := hprev k hk
              rw [show (p :: rest).take (k + 1 + 1) = p :: rest.take (k + 1) from rfl]
              rw [show (totalWeightOf (p :: rest.take (k + 1)) : ℚ) =
                  (p.entries : ℚ) + (totalWeightOf (rest.take (k + 1)) : ℚ) from by
                simp [totalWeightOf]]
              linarith

theorem targetOf_lt {ps : List Participant} {ex : Finset String} (seed : String)
    (fb : Nat) (hW : totalWeightOf (eligibleOf ps ex) ≠ 0) :
    targetOf ps seed ex fb < (totalWeightOf (eligibleOf ps ex) : ℚ) := by
  unfold targetOf
  have hWpos : (0 : ℚ) < (totalWeightOf (eligibleOf ps ex) : ℚ) := by
    exact_mod_cast Nat.pos_of_ne_zero hW
  have hk : (selectRandom seed ex.card fb : ℚ) / 4294967296 < 1 := by
    rw [div_lt_one (by norm_num : (0 : ℚ) < 4294967296)]
    exact_mod_cast mulberry32_lt _
  exact mul_lt_of_lt_one_left hWpos hk

/-- C2: the selector returns `none` exactly when the eligible set is
empty or its total weight is zero; otherwise it returns the first
eligible participant (in pool order) whose cumulative entry sum reaches
`target = r * totalWeight`, every earlier prefix falling short (in exact
arithmetic the walk never falls through, so the last-participant fallback
never fires); and the conformance scenario holds: walking `[A:1, B:9]`
with target `9.5` selects `B`. -/
theorem selection_postcondition (ps : List Participant) (seed : String)
    (ex : Finset String) (fb : Nat) :
    (weightedRandomSelect ps seed ex fb = none ↔
      eligibleOf ps ex = [] ∨ totalWeightOf (eligibleOf ps ex) = 0) ∧
    (eligibleOf ps ex ≠ [] → totalWeightOf (eligibleOf ps ex) ≠ 0 →
      ∃ i, ∃ hi : i < (eligibleOf ps ex).length,
        weightedRandomSelect ps seed ex fb = some ((eligibleOf ps ex).get ⟨i, hi⟩) ∧
        targetOf ps seed ex fb ≤ (totalWeightOf ((eligibleOf ps ex).take (i + 1)) : ℚ) ∧
        ∀ j < i, (totalWeightOf ((eligibleOf ps ex).take (j + 1)) : ℚ) <
          targetOf ps seed ex fb) ∧
    cumFind (19 / 2) 0 [⟨"A", "a@example.com", 1⟩, ⟨"B", "b@example.com", 9⟩] =
      some ⟨"B", "b@example.com", 9⟩ := by
  have hsome : ∀ (_ : eligibleOf ps ex ≠ [])
      (_ : totalWeightOf (eligibleOf ps ex) ≠ 0),
      ∃ i, ∃ hi : i < (eligibleOf ps ex).length,
        weightedRandomSelect ps seed ex fb = some ((eligibleOf ps ex).get ⟨i, hi⟩) ∧
        targetOf ps seed ex fb ≤ (totalWeightOf ((eligibleOf ps ex).take (i + 1)) : ℚ) ∧
        ∀ j < i, (totalWeightOf ((eligibleOf ps ex).take (j + 1)) : ℚ) <
          targetOf ps seed ex fb := by
    intro hne hW
    have hlt := targetOf_lt seed fb hW
    obtain ⟨i, hi, hfind, hcum, hprev⟩ :=
      cumFind_first (targetOf ps seed ex fb) (eligibleOf ps ex) 0 hne
        (by rw [zero_add]; exact le_of_lt hlt)
    refine ⟨i, hi, ?_, by simpa using hcum, fun j hj => by simpa using hprev j hj⟩
    unfold weightedRandomSelect
    unfold targetOf at hfind
    simp only [List.isEmpty_iff, hne, if_false, hW, reduceIte]
    rw [hfind]
  refine ⟨⟨?_, ?_⟩, hsome, ?_⟩
  · intro h
    by_contra hcon
    push_neg at hcon
    obtain ⟨i, hi, hres, -, -⟩ := hsome hcon.1 hcon.2
    rw [hres] at h
    exact Option.noConfusion h
  · intro h
    unfold weightedRandomSelect
    rcases h with h | h
    · simp [h]
    · by_cases hne : eligibleOf ps ex = []
      · simp [hne]
      · simp [List.isEmpty_iff, hne, h]
  · norm_num [cumFind]

/-- C2 witness: the postcondition instantiated at the pool
`[demoA, demoB]`, seed `"1"` and empty exclusion set. -/
theorem selection_postcondition_witness :
    eligibleOf [demoA, demoB] ∅ ≠ [] ∧
    totalWeightOf (eligibleOf [demoA, demoB] ∅) ≠ 0 ∧
    ∃ i, ∃ hi : i < (eligibleOf [demoA, demoB] ∅).length,
      weightedRandomSelect [demoA, demoB] "1" ∅ 0 =
        some ((eligibleOf [demoA, demoB] ∅).get ⟨i, hi⟩) ∧
      targetOf [demoA, demoB] "1" ∅ 0 ≤
        (totalWeightOf ((eligibleOf [demoA, demoB] ∅).take (i + 1)) : ℚ) ∧
      ∀ j < i, (totalWeightOf ((eligibleOf [demoA, demoB] ∅).take (j + 1)) : ℚ) <
        targetOf [demoA, demoB] "1" ∅ 0 :=
  ⟨by decide, by decide,
   (selection_postcondition [demoA, demoB] "1" ∅ 0).2.1 (by decide) (by decide)⟩

theorem prefix_getElem? {α : Type} {l₁ l₂ : List α} {j : Nat} {x : α}
    (hp : l₁ <+: l₂) (h : l₁[j]? = some x) : l₂[j]? = some x := by
  obtain ⟨t, rfl⟩ := hp
  have hj : j < l₁.length := by
    by_contra hn
    rw [List.getElem?_eq_none (Nat.le_of_not_lt hn)] at h
    exact Option.noConfusion h
  rw [List.getElem?_append_left hj]
  exact h

theorem concat_getElem? {α : Type} {l : List α} {a : α} {j : Nat} {x : α}
    (h : (l ++ [a])[j]? = some x) :
    (l[j]? = some x ∧ j < l.length) ∨ (j = l.length ∧ x = a) := by
  by_cases hj : j < l.length
  · left
    refine ⟨?_, hj⟩
    rwa [List.getElem?_append_left hj] at h
  · right
    have hlen : j < l.length + 1 := by
      by_contra hn
      rw [List.getElem?_eq_none (by simpa using Nat.le_of_not_lt hn)] at h
      exact Option.noConfusion h
    have hje : j = l.length := by omega
    subst hje
    rw [List.getElem?_append_right (le_refl _)] at h
    simp at h
    exact ⟨rfl, h.symm⟩

theorem bulkLoop_bonus (ps : List Participant) (seed : String) (cfg : RaffleConfig)
    (fbs : Nat → Nat) :
    ∀ n i ex, ∀ x ∈ bulkLoop ps seed cfg fbs i n ex,
      x.isBonusPrize = decide (0 < cfg.bonusRoundInterval ∧
        x.drawNumber % cfg.bonusRoundInterval = 0) := by
  intro n
  induction n with
  | zero => intro i ex x hx; simp [bulkLoop] at hx
  | succ n ih =>
      intro i ex x hx
      rw [bulkLoop] at hx
      revert hx
      cases weightedRandomSelect ps seed (if cfg.allowRepeats then ∅ else ex)
          (fbs i) with
      | none => intro hx; simp at hx
      | some w =>
          intro hx
          rcases List.mem_cons.mp hx with hform | htail
          · rw [hform]
          · exact ih (i + 1) _ x htail

theorem bulkLoop_positions (ps : List Participant) (seed : String) (cfg : RaffleConfig)
    (fbs : Nat → Nat) :
    ∀ n i ex j x, (bulkLoop ps seed cfg fbs i n ex)[j]? = some x →
      x.drawNumber = i + j + 1 := by
  intro n
  induction n with
  | zero => intro i ex j x hx; simp [bulkLoop] at hx
  | succ n ih =>
      intro i ex j x hx
      rw [bulkLoop] at hx
      revert hx
      cases weightedRandomSelect ps seed (if cfg.allowRepeats then ∅ else ex)
          (fbs i) with
      | none => intro hx; simp at hx
      | some w =>
          cases j with
          | zero =>
              intro hx
              simp only [List.getElem?_cons_zero, Option.some.injEq] at hx
              rw [← hx]
          | succ j' =>
              intro hx
              simp only [List.getElem?_cons_succ] at hx
              have := ih (i + 1) _ j' x hx
              omega


theorem bonusInv_uiStep (k : Nat) (s : RaffleState) (op : UIOp)
    (hk : s.config.bonusRoundInterval = k) (h : BonusInv k s) :
    BonusInv k (uiStep s op) := by
  obtain ⟨h1, h2⟩ := h
  unfold uiStep
  by_cases he : enabled s op = true
  case neg =>
      rw [if_neg he]
      exact ⟨h1, h2⟩
  rw [if_pos he]
  cases op with
  | drawNext fb =>
      simp only [applyOp]
      by_cases hr : s.isReplayMode = true
      · by_cases hle : s.winners.length ≤ s.replayIndex
        · rw [handleDrawNext_replay_done fb hr hle]
          exact ⟨h1, h2⟩
        · rw [handleDrawNext_replay_play fb hr (Nat.not_le.mp hle)]
          exact ⟨h1, h2⟩
      · have hr2 : s.isReplayMode = false := by simpa using hr
        by_cases hc : s.config.numberOfWinners ≤ s.winners.length
        · rw [handleDrawNext_complete fb hr2 hc]
          exact ⟨h1, h2⟩
        · rw [handleDrawNext_select fb hr2 hc]
          cases weightedRandomSelect s.participants s.seed (excludeSetOf s) fb with
          | some w => exact ⟨h1, h2⟩
          | none => exact ⟨h1, h2⟩
  | spinComplete =>
      simp only [applyOp]
      cases hcw : s.currentWinner with
      | none =>
          rw [handleSpinComplete_none hcw]
          exact ⟨h1, h2⟩
      | some c =>
          by_cases hr : s.isReplayMode = true
          · rw [handleSpinComplete_replay hcw hr]
            exact ⟨h1, h2⟩
          · have hr2 : s.isReplayMode = false := by simpa using hr
            rw [handleSpinComplete_record hcw hr2]
            refine ⟨?_, h2⟩
            intro w hw
            rcases List.mem_append.mp hw with hin | hnew
            · exact h1 w hin
            · rw [List.mem_singleton.mp hnew]
              unfold recordedWinner
              rw [hk]
  | undo =>
      simp only [applyOp]
      by_cases hg : s.winners = [] ∨ s.isLocked = true
      · rw [handleUndo_noop hg]
        exact ⟨h1, h2⟩
      · push_neg at hg
        rw [handleUndo_pop hg.1 (by simpa using hg.2)]
        exact ⟨fun w hw => h1 w ((List.dropLast_sublist _).mem hw), h2⟩
  | restart =>
      simp only [applyOp]
      exact ⟨by simp [handleRestart], by simpa [handleRestart] using h2⟩
  | lock =>
      simp only [applyOp]
      exact ⟨h1, h2⟩
  | startPresenter =>
      simp only [applyOp]
      unfold startPresenterMode
      split
      · exact ⟨h1, h2⟩
      · split
        · exact ⟨h1, h2⟩
        · exact ⟨h1, h2⟩
  | startReplay =>
      simp only [applyOp]
      by_cases hw : s.winners = []
      · rw [startReplayMode_noop hw]
        exact ⟨h1, h2⟩
      · rw [startReplayMode_enter hw]
        exact ⟨h1, h2⟩
  | exitPresenter =>
      simp only [applyOp]
      by_cases hb : s.bulkWinners = []
      · rw [exitPresenterMode_plain hb]
        exact ⟨h1, h2⟩
      · rw [exitPresenterMode_commit hb]
        exact ⟨h2, by simp⟩
  | bulkDraw fbs =>
      simp only [applyOp]
      by_cases hp : s.participants = []
      · rw [handleBulkDraw_noop fbs hp]
        exact ⟨h1, h2⟩
      · rw [handleBulkDraw_run fbs hp]
        refine ⟨h1, ?_⟩
        intro w hw
        have := bulkLoop_bonus s.participants s.seed s.config fbs _ _ _ w hw
        rwa [hk] at this

theorem posInv_uiStep (s : RaffleState) (op : UIOp)
    (hno : op.isStartReplay = false) (h : PosInv s) : PosInv (uiStep s op) := by
  obtain ⟨h1, h2, h3, h4⟩ := h
  unfold uiStep
  by_cases he : enabled s op = true
  case neg =>
      rw [if_neg he]
      exact ⟨h1, h2, h3, h4⟩
  rw [if_pos he]
  cases op with
  | drawNext fb =>
      simp only [applyOp]
      by_cases hc : s.config.numberOfWinners ≤ s.winners.length
      · rw [handleDrawNext_complete fb h4 hc]
        exact ⟨h1, h2, h3, h4⟩
      · rw [handleDrawNext_select fb h4 hc]
        cases weightedRandomSelect s.participants s.seed (excludeSetOf s) fb with
        | some w => exact ⟨h1, h2, h3, h4⟩
        | none => exact ⟨h1, h2, h3, h4⟩
  | spinComplete =>
      simp only [applyOp]
      cases hcw : s.currentWinner with
      | none =>
          rw [handleSpinComplete_none hcw]
          exact ⟨h1, h2, h3, h4⟩
      | some c =>
          rw [handleSpinComplete_record hcw h4]
          refine ⟨by simp [h1], ?_, h3, h4⟩
          intro j x hx
          rcases concat_getElem? hx with ⟨hget, hlt⟩ | ⟨hj, hx2⟩
          · exact h2 j x hget
          · rw [hx2]
            unfold recordedWinner
            simp [h1, hj]
  | undo =>
      simp only [applyOp]
      by_cases hg : s.winners = [] ∨ s.isLocked = true
      · rw [handleUndo_noop hg]
        exact ⟨h1, h2, h3, h4⟩
      · push_neg at hg
        rw [handleUndo_pop hg.1 (by simpa using hg.2)]
        refine ⟨by simp [h1], ?_, h3, h4⟩
        intro j x hx
        exact h2 j x (prefix_getElem? (List.dropLast_prefix _) hx)
  | restart =>
      simp only [applyOp]
      refine ⟨by simp [handleRestart], by simp [handleRestart], ?_,
        by simpa [handleRestart] using h4⟩
      intro j x hx
      exact h3 j x (by simpa [handleRestart] using hx)
  | lock =>
      simp only [applyOp]
      exact ⟨h1, h2, h3, h4⟩
  | startPresenter =>
      simp only [applyOp]
      unfold startPresenterMode
      split
      · exact ⟨h1, h2, h3, h4⟩
      · split
        · exact ⟨h1, h2, h3, h4⟩
        · exact ⟨h1, h2, h3, by simp⟩
  | startReplay =>
      simp [UIOp.isStartReplay] at hno
  | exitPresenter =>
      simp only [applyOp]
      by_cases hb : s.bulkWinners = []
      · rw [exitPresenterMode_plain hb]
        exact ⟨h1, h2, h3, by simp⟩
      · rw [exitPresenterMode_commit hb]
        exact ⟨rfl, h3, by simp, by simp⟩
  | bulkDraw fbs =>
      simp only [applyOp]
      by_cases hp : s.participants = []
      · rw [handleBulkDraw_noop fbs hp]
        exact ⟨h1, h2, h3, h4⟩
      · rw [handleBulkDraw_run fbs hp]
        refine ⟨h1, h2, ?_, h4⟩
        intro j x hx
        have := bulkLoop_positions s.participants s.seed s.config fbs _ _ _ j x hx
        omega

theorem bonusInv_runOps (k : Nat) (s : RaffleState) (ops : List UIOp)
    (hk : s.config.bonusRoundInterval = k) (h : BonusInv k s) :
    BonusInv k (runOps s ops) := by
  induction ops generalizing s with
  | nil => exact h
  | cons op ops ih =>
      rw [show runOps s (op :: ops) = runOps (uiStep s op) ops from rfl]
      refine ih _ ?_ (bonusInv_uiStep k s op hk h)
      rw [(uiStep_immutables s op).1]
      exact hk

theorem posInv_runOps (s : RaffleState) (ops : List UIOp)
    (hno : ∀ op ∈ ops, op.isStartReplay = false) (h : PosInv s) :
    PosInv (runOps s ops) := by
  induction ops generalizing s with
  | nil => exact h
  | cons op ops ih =>
      rw [show runOps s (op :: ops) = runOps (uiStep s op) ops from rfl]
      exact ih _ (fun o ho => hno o (List.mem_cons_of_mem op ho))
        (posInv_uiStep s op (hno op (List.mem_cons_self op ops)) h)

/-- C7 (amended): every winner a session records carries
`isBonus = (k > 0 && drawNumber % k == 0)` for the configured interval
`k`, along any UI-guarded operation sequence; and along sequences that
never enter replay, the recorded `drawNumber` equals the winner's 1-based
list position, so the winner at position `p` is flagged bonus iff `k > 0`
and `p % k = 0` (and never when `k = 0`). A partially-completed replay
desynchronizes the draw counter from the list position — see the
counterexample. -/
theorem bonus_cadence (s : RaffleState) (ops₁ ops₂ : List UIOp)
    (hw : s.winners = []) (hb : s.bulkWinners = []) (hd : s.drawNumber = 0)
    (hr : s.isReplayMode = false)
    (hno : ∀ op ∈ ops₂, op.isStartReplay = false) :
    (∀ w ∈ (runOps s ops₁).winners,
      w.isBonusPrize = decide (0 < s.config.bonusRoundInterval ∧
        w.drawNumber % s.config.bonusRoundInterval = 0)) ∧
    (∀ w ∈ (runOps s ops₁).bulkWinners,
      w.isBonusPrize = decide (0 < s.config.bonusRoundInterval ∧
        w.drawNumber % s.config.bonusRoundInterval = 0)) ∧
    (∀ j x, (runOps s ops₂).winners[j]? = some x →
      (x.isBonusPrize = true ↔
        0 < s.config.bonusRoundInterval ∧
          (j + 1) % s.config.bonusRoundInterval = 0)) := by
  have hbonus0 : BonusInv s.config.bonusRoundInterval s := by
    constructor
    · intro w hwin
      rw [hw] at hwin
      exact absurd hwin (List.not_mem_nil w)
    · intro w hwin
      rw [hb] at hwin
      exact absurd hwin (List.not_mem_nil w)
  obtain ⟨b1, b2⟩ := bonusInv_runOps s.config.bonusRoundInterval s ops₁ rfl hbonus0
  refine ⟨b1, b2, ?_⟩
  obtain ⟨c1, c2⟩ := bonusInv_runOps s.config.bonusRoundInterval s ops₂ rfl hbonus0
  have hpos0 : PosInv s := by
    refine ⟨by rw [hd, hw]; rfl, ?_, ?_, hr⟩
    · intro j x hx
      rw [hw] at hx
      simp at hx
    · intro j x hx
      rw [hb] at hx
      simp at hx
  obtain ⟨p1, p2, p3, p4⟩ := posInv_runOps s ops₂ hno hpos0
  intro j x hx
  have hflag := c1 x (List.getElem?_mem hx)
  have hdn := p2 j x hx
  rw [hflag, hdn]
  simp

/-- C7 counterexample: with bonus interval 2, record one winner, enter
replay (draw counter resets to 0), exit immediately, and record a second
winner: the winner at 1-based position 2 is stored with `drawNumber = 1`
and `isBonusPrize = false`, though the claim requires position 2 to be a
bonus winner (`2 % 2 = 0`). -/
theorem bonus_cadence_counterexample :
    bonusSession.config.bonusRoundInterval = 2 ∧
    (runOps bonusSession abortedReplayOps).winners.length = 2 ∧
    ((runOps bonusSession abortedReplayOps).winners[1]?).map Winner.isBonusPrize =
      some false := by
  have e1 : uiStep bonusSession UIOp.startPresenter = (⟨[demoX, demoY], ⟨2, false, 2, RevealMode.sequential⟩, "1", [], 0, false, some [], none, false, true, false, 0, []⟩ : RaffleState) := by
    decide
  have hsel1 : weightedRandomSelect ((⟨[demoX, demoY], ⟨2, false, 2, RevealMode.sequential⟩, "1", [], 0, false, some [], none, false, true, false, 0, []⟩ : RaffleState)).participants ((⟨[demoX, demoY], ⟨2, false, 2, RevealMode.sequential⟩, "1", [], 0, false, some [], none, false, true, false, 0, []⟩ : RaffleState)).seed
      (excludeSetOf (⟨[demoX, demoY], ⟨2, false, 2, RevealMode.sequential⟩, "1", [], 0, false, some [], none, false, true, false, 0, []⟩ : RaffleState)) 0 = some demoY := by
    rw [weightedRandomSelect_eq_exec]
    decide
  have e2 : uiStep (⟨[demoX, demoY], ⟨2, false, 2, RevealMode.sequential⟩, "1", [], 0, false, some [], none, false, true, false, 0, []⟩ : RaffleState) (UIOp.drawNext 0) = (⟨[demoX, demoY], ⟨2, false, 2, RevealMode.sequential⟩, "1", [], 0, false, some [], some demoY, true, true, false, 0, []⟩ : RaffleState) := by
    unfold uiStep
    rw [if_pos (by decide)]
    simp only [applyOp]
    rw [handleDrawNext_select (s := (⟨[demoX, demoY], ⟨2, false, 2, RevealMode.sequential⟩, "1", [], 0, false, some [], none, false, true, false, 0, []⟩ : RaffleState)) 0 rfl (by decide), hsel1]
  have e3 : uiStep (⟨[demoX, demoY], ⟨2, false, 2, RevealMode.sequential⟩, "1", [], 0, false, some [], some demoY, true, true, false, 0, []⟩ : RaffleState) UIOp.spinComplete = (⟨[demoX, demoY], ⟨2, false, 2, RevealMode.sequential⟩, "1", [⟨demoY, 1, false⟩], 1, false, some [⟨1, "Yuri", "yuri@example.com", 1⟩], some demoY, false, true, false, 0, []⟩ : RaffleState) := by
    decide
  have e4 : uiStep (⟨[demoX, demoY], ⟨2, false, 2, RevealMode.sequential⟩, "1", [⟨demoY, 1, false⟩], 1, false, some [⟨1, "Yuri", "yuri@example.com", 1⟩], some demoY, false, true, false, 0, []⟩ : RaffleState) UIOp.exitPresenter = (⟨[demoX, demoY], ⟨2, false, 2, RevealMode.sequential⟩, "1", [⟨demoY, 1, false⟩], 1, false, some [⟨1, "Yuri", "yuri@example.com", 1⟩], none, false, false, false, 0, []⟩ : RaffleState) := by
    decide
  have e5 : uiStep (⟨[demoX, demoY], ⟨2, false, 2, RevealMode.sequential⟩, "1", [⟨demoY, 1, false⟩], 1, false, some [⟨1, "Yuri", "yuri@example.com", 1⟩], none, false, false, false, 0, []⟩ : RaffleState) UIOp.startReplay = (⟨[demoX, demoY], ⟨2, false, 2, RevealMode.sequential⟩, "1", [⟨demoY, 1, false⟩], 0, false, some [⟨1, "Yuri", "yuri@example.com", 1⟩], none, false, true, true, 0, []⟩ : RaffleState) := by
    decide
  have e6 : uiStep (⟨[demoX, demoY], ⟨2, false, 2, RevealMode.sequential⟩, "1", [⟨demoY, 1, false⟩], 0, false, some [⟨1, "Yuri", "yuri@example.com", 1⟩], none, false, true, true, 0, []⟩ : RaffleState) UIOp.exitPresenter = (⟨[demoX, demoY], ⟨2, false, 2, RevealMode.sequential⟩, "1", [⟨demoY, 1, false⟩], 0, false, some [⟨1, "Yuri", "yuri@example.com", 1⟩], none, false, false, false, 0, []⟩ : RaffleState) := by
    decide
  have e7 : uiStep (⟨[demoX, demoY], ⟨2, false, 2, RevealMode.sequential⟩, "1", [⟨demoY, 1, false⟩], 0, false, some [⟨1, "Yuri", "yuri@example.com", 1⟩], none, false, false, false, 0, []⟩ : RaffleState) UIOp.startPresenter = (⟨[demoX, demoY], ⟨2, false, 2, RevealMode.sequential⟩, "1", [⟨demoY, 1, false⟩], 0, false, some [⟨1, "Yuri", "yuri@example.com", 1⟩], none, false, true, false, 0, []⟩ : RaffleState) := by
    decide
  have hsel8 : weightedRandomSelect ((⟨[demoX, demoY], ⟨2, false, 2, RevealMode.sequential⟩, "1", [⟨demoY, 1, false⟩], 0, false, some [⟨1, "Yuri", "yuri@example.com", 1⟩], none, false, true, false, 0, []⟩ : RaffleState)).participants ((⟨[demoX, demoY], ⟨2, false, 2, RevealMode.sequential⟩, "1", [⟨demoY, 1, false⟩], 0, false, some [⟨1, "Yuri", "yuri@example.com", 1⟩], none, false, true, false, 0, []⟩ : RaffleState)).seed
      (excludeSetOf (⟨[demoX, demoY], ⟨2, false, 2, RevealMode.sequential⟩, "1", [⟨demoY, 1, false⟩], 0, false, some [⟨1, "Yuri", "yuri@example.com", 1⟩], none, false, true, false, 0, []⟩ : RaffleState)) 0 = some demoX := by
    rw [weightedRandomSelect_eq_exec]
    decide
  have e8 : uiStep (⟨[demoX, demoY], ⟨2, false, 2, RevealMode.sequential⟩, "1", [⟨demoY, 1, false⟩], 0, false, some [⟨1, "Yuri", "yuri@example.com", 1⟩], none, false, true, false, 0, []⟩ : RaffleState) (UIOp.drawNext 0) = (⟨[demoX, demoY], ⟨2, false, 2, RevealMode.sequential⟩, "1", [⟨demoY, 1, false⟩], 0, false, some [⟨1, "Yuri", "yuri@example.com", 1⟩], some demoX, true, true, false, 0, []⟩ : RaffleState) := by
    unfold uiStep
    rw [if_pos (by decide)]
    simp only [applyOp]
    rw [handleDrawNext_select (s := (⟨[demoX, demoY], ⟨2, false, 2, RevealMode.sequential⟩, "1", [⟨demoY, 1, false⟩], 0, false, some [⟨1, "Yuri", "yuri@example.com", 1⟩], none, false, true, false, 0, []⟩ : RaffleState)) 0 rfl (by decide), hsel8]
  have e9 : uiStep (⟨[demoX, demoY], ⟨2, false, 2, RevealMode.sequential⟩, "1", [⟨demoY, 1, false⟩], 0, false, some [⟨1, "Yuri", "yuri@example.com", 1⟩], some demoX, true, true, false, 0, []⟩ : RaffleState) UIOp.spinComplete = (⟨[demoX, demoY], ⟨2, false, 2, RevealMode.sequential⟩, "1", [⟨demoY, 1, false⟩, ⟨demoX, 1, false⟩], 1, false, some [⟨1, "Yuri", "yuri@example.com", 1⟩, ⟨1, "Xena", "xena@example.com", 1⟩], some demoX, false, true, false, 0, []⟩ : RaffleState) := by
    decide
  have hrun : runOps bonusSession abortedReplayOps = (⟨[demoX, demoY], ⟨2, false, 2, RevealMode.sequential⟩, "1", [⟨demoY, 1, false⟩, ⟨demoX, 1, false⟩], 1, false, some [⟨1, "Yuri", "yuri@example.com", 1⟩, ⟨1, "Xena", "xena@example.com", 1⟩], some demoX, false, true, false, 0, []⟩ : RaffleState) := by
    show List.foldl uiStep bonusSession abortedReplayOps = _
    unfold abortedReplayOps
    simp only [List.foldl]
    rw [e1, e2, e3, e4, e5, e6, e7, e8, e9]
  rw [hrun]
  exact ⟨rfl, rfl, rfl⟩

/-- C7 witness: the cadence law at `bonusSession` over one recorded
draw. -/
theorem bonus_cadence_witness :
    bonusSession.winners = [] ∧
    ∀ j x, (runOps bonusSession
      [UIOp.startPresenter, UIOp.drawNext 0, UIOp.spinComplete]).winners[j]? = some x →
      (x.isBonusPrize = true ↔ 0 < bonusSession.config.bonusRoundInterval ∧
        (j + 1) % bonusSession.config.bonusRoundInterval = 0) :=
  ⟨rfl, (bonus_cadence bonusSession []
    [UIOp.startPresenter, UIOp.drawNext 0, UIOp.spinComplete]
    rfl rfl rfl rfl (by decide)).2.2⟩

end Raffle
